import Mathlib

/-!
Verification development for the h_browser backend core: a shallow embedding
of the metadata extractor (`backend/services/metadata.py`), the library
synchronizer (`backend/scanner.py`), the media service
(`backend/services/media_service.py`), the duration probe
(`backend/ffprobe_util.py`) and the HLS byte-range segment planner
(`backend/routes/api.py`, `stream_playlist_m3u8`).

Python strings are modelled as Lean `String`; the handful of Python string
operations the code uses (`str.strip`, `str.lower`, `str.startswith`,
`str.splitlines`, `str.lstrip`) are re-implemented over `List Char` so that
they are kernel-executable.  XML documents (ElementTree) are modelled as a
tree of elements carrying tag, attributes, optional text and children;
inter-element whitespace (ElementTree `tail`) is not represented because
neither the parser nor any verified property reads it.  Fallible I/O is
modelled with explicit source/outcome datatypes.
-/

/-- Python whitespace characters for ASCII `str.strip` (space, tab, LF, CR,
vertical tab, form feed). -/
def isSpaceChar (c : Char) : Bool :=
  c = ' ' || c = '\t' || c = '\n' || c = '\r' || c = '\x0b' || c = '\x0c'

/-- Python `str.strip()`: drop leading and trailing whitespace. -/
def pyStrip (s : String) : String :=
  ⟨((s.data.dropWhile isSpaceChar).reverse.dropWhile isSpaceChar).reverse⟩

/-- ASCII lower-casing of one character, as `str.lower` acts on ASCII. -/
def asciiLowerChar (c : Char) : Char :=
  if 'A' ≤ c ∧ c ≤ 'Z' then Char.ofNat (c.toNat + 32) else c

/-- Python `str.lower()` (ASCII fragment; the denylist stems are ASCII). -/
def pyLower (s : String) : String := ⟨s.data.map asciiLowerChar⟩

/-- Character-list version of Python `str.startswith`. -/
def charsLead : List Char → List Char → Bool
  | [], _ => true
  | _ :: _, [] => false
  | p :: ps, c :: cs => p = c && charsLead ps cs

/-- Python `s.startswith(pre)`. -/
def pyStartsWith (s pre : String) : Bool := charsLead pre.data s.data

/-- Line-break characters recognised by Python `str.splitlines`. -/
def isLineBreakChar (c : Char) : Bool :=
  c = '\n' || c = '\r' || c = '\x0b' || c = '\x0c' ||
  c = '\x1c' || c = '\x1d' || c = '\x1e' || c = '\x85' ||
  c = '\u2028' || c = '\u2029'

/-- The first line of a (non-empty) string, i.e. `s.splitlines()[0]`. -/
def firstSplitLine (s : String) : String :=
  ⟨s.data.takeWhile (fun c => !isLineBreakChar c)⟩

/-- Python `s.lstrip(".")`: drop leading dots. -/
def pyLstripDots (s : String) : String := ⟨s.data.dropWhile (fun c => c = '.')⟩

/-- Numeric value of a digit list (most significant first). -/
def digitsVal (l : List Char) : Nat :=
  l.foldl (fun a c => a * 10 + (c.toNat - '0'.toNat)) 0

/-- Tolerant integer conversion mirroring `_int_or_none` in
`backend/services/metadata.py`: strip, then Python `int()` on an optional
sign followed by digits; anything else yields `none`.  (Python `int()` also
allows digit-group underscores, which no sidecar field uses and which this
model rejects.) -/
def pyIntOrNone : Option String → Option Int
  | none => none
  | some s =>
    match (pyStrip s).data with
    | '-' :: rest =>
      if rest ≠ [] ∧ rest.all Char.isDigit then some (-(digitsVal rest : Int)) else none
    | '+' :: rest =>
      if rest ≠ [] ∧ rest.all Char.isDigit then some (digitsVal rest : Int) else none
    | l => if l ≠ [] ∧ l.all Char.isDigit then some (digitsVal l : Int) else none

/-- The value domain of Python `float()`: finite values, the two
infinities, and NaN.  Finite values are carried as exact rationals; the
rounding of a decimal literal to the nearest IEEE-754 double is abstracted
away, and no verified property depends on that rounding. -/
inductive PyFloat where
  | finite (q : ℚ)
  | inf
  | neginf
  | nan
deriving DecidableEq, Repr

/-- IEEE negation: `-inf` and `-nan` behave as Python `float()` produces
them for a leading minus sign. -/
def PyFloat.neg : PyFloat → PyFloat
  | .finite q => .finite (-q)
  | .inf => .neginf
  | .neginf => .inf
  | .nan => .nan

/-- IEEE comparison `a <= b`: NaN compares false against everything. -/
def PyFloat.leB : PyFloat → PyFloat → Bool
  | .nan, _ => false
  | _, .nan => false
  | .neginf, _ => true
  | _, .neginf => false
  | .finite a, .finite b => a ≤ b
  | .finite _, .inf => true
  | .inf, .inf => true
  | .inf, .finite _ => false

/-- IEEE comparison `a < b`: NaN compares false against everything. -/
def PyFloat.ltB : PyFloat → PyFloat → Bool
  | .nan, _ => false
  | _, .nan => false
  | .neginf, .neginf => false
  | .neginf, _ => true
  | _, .neginf => false
  | .finite a, .finite b => a < b
  | .finite _, .inf => true
  | .inf, _ => false

/-- Python digit-group underscores are legal only between two digits; the
first argument carries the previous character. -/
def underscoresOK : Option Char → List Char → Bool
  | _, [] => true
  | prev, '_' :: rest =>
    (match prev with
     | some p => p.isDigit
     | none => false) &&
    (match rest with
     | r :: _ => r.isDigit
     | [] => false) &&
    underscoresOK (some '_') rest
  | _, c :: rest => underscoresOK (some c) rest

/-- An unsigned decimal mantissa `digits[.digits]` (at least one digit) as
an exact rational. -/
def parseMantissa (l : List Char) : Option ℚ :=
  let whole := l.takeWhile (fun c => c ≠ '.')
  match l.dropWhile (fun c => c ≠ '.') with
  | [] =>
    if whole ≠ [] ∧ whole.all Char.isDigit then some (digitsVal whole : ℚ)
    else none
  | '.' :: frac =>
    if (whole ≠ [] ∨ frac ≠ []) ∧ whole.all Char.isDigit ∧
        frac.all Char.isDigit then
      some ((digitsVal whole : ℚ) + (digitsVal frac : ℚ) / (10 : ℚ) ^ frac.length)
    else none
  | _ => none

/-- A decimal exponent with optional sign. -/
def parseExp (l : List Char) : Option Int :=
  match l with
  | '+' :: rest =>
    if rest ≠ [] ∧ rest.all Char.isDigit then some (digitsVal rest : Int) else none
  | '-' :: rest =>
    if rest ≠ [] ∧ rest.all Char.isDigit then some (-(digitsVal rest : Int))
    else none
  | _ => if l ≠ [] ∧ l.all Char.isDigit then some (digitsVal l : Int) else none

/-- The unsigned part of a `float()` literal: `inf`, `infinity` or `nan`
(case-insensitive), or a decimal mantissa with optional `e`/`E` exponent. -/
def parseUnsignedFloat (l : List Char) : Option PyFloat :=
  let low := l.map asciiLowerChar
  if low = "inf".data ∨ low = "infinity".data then some .inf
  else if low = "nan".data then some .nan
  else
    let mant := l.takeWhile (fun c => c ≠ 'e' ∧ c ≠ 'E')
    match l.dropWhile (fun c => c ≠ 'e' ∧ c ≠ 'E') with
    | [] => (parseMantissa mant).map PyFloat.finite
    | _ :: expPart =>
      match parseMantissa mant, parseExp expPart with
      | some m, some e => some (.finite (m * (10 : ℚ) ^ e))
      | _, _ => none

/-- Python `float()` on a string: strip surrounding whitespace, validate
digit-group underscores and remove them, then parse an optional sign
followed by `inf`/`infinity`/`nan` (case-insensitive) or a decimal mantissa
with optional exponent.  Non-ASCII digit forms are out of this model. -/
def pyFloat (s : String) : Option PyFloat :=
  let l := (pyStrip s).data
  if !underscoresOK none l then none
  else
    let l2 := l.filter (fun c => c ≠ '_')
    match l2 with
    | '+' :: rest => parseUnsignedFloat rest
    | '-' :: rest => (parseUnsignedFloat rest).map PyFloat.neg
    | _ => parseUnsignedFloat l2

/-- Tolerant float conversion mirroring `_float_or_none`: strip then
`float()`. -/
def pyFloatOrNone : Option String → Option PyFloat
  | none => none
  | some s => pyFloat (pyStrip s)

/-- An ElementTree element: tag, attributes (in document order), optional
text, and child elements. -/
inductive XML where
  | elem (tag : String) (attrs : List (String × String)) (text : Option String)
      (children : List XML)

/-- Tag name of an element. -/
def XML.tag : XML → String
  | .elem t _ _ _ => t

/-- Attribute list of an element. -/
def XML.attrs : XML → List (String × String)
  | .elem _ a _ _ => a

/-- Optional text of an element (`None` when the element has no text node). -/
def XML.text : XML → Option String
  | .elem _ _ tx _ => tx

/-- Child elements. -/
def XML.children : XML → List XML
  | .elem _ _ _ cs => cs

/-- `el.get(key)`: first attribute with the given name. -/
def getAttr (x : XML) (k : String) : Option String :=
  (x.attrs.find? (fun kv => kv.1 = k)).map (fun kv => kv.2)

/-- `root.find(tag)`: first direct child with the given tag. -/
def findTag (cs : List XML) (t : String) : Option XML :=
  cs.find? (fun c => c.tag = t)

/-- `root.find(tag[@key="v"])`: first direct child with the given tag whose
attribute `key` equals `v`. -/
def findTagAttr (cs : List XML) (t k v : String) : Option XML :=
  cs.find? (fun c => c.tag = t && getAttr c k = some v)

/-- `root.findall(tag)`: all direct children with the given tag, in order. -/
def findallTag (cs : List XML) (t : String) : List XML :=
  cs.filter (fun c => c.tag = t)

/-- `_text` from `backend/services/metadata.py`: stripped element text,
`none` for a missing element or blank text. -/
def pyText (el : Option XML) : Option String :=
  match el with
  | none => none
  | some e =>
    let t := pyStrip (e.text.getD "")
    if t = "" then none else some t

/-- `_is_local_path`: non-empty after strip and not an absolute `http` or
`https` URL. -/
def is_local_path : Option String → Bool
  | none => false
  | some s =>
    let t := pyStrip s
    if t = "" then false
    else !(pyStartsWith t "http://" || pyStartsWith t "https://")

/-- Python truthiness of an ElementTree element: an element is truthy iff it
has child elements (this quirk decides the `fanart.find("thumb") or fanart`
expression in `parse_nfo`). -/
def elemTruthy (x : XML) : Bool := !x.children.isEmpty

/-- An actor record parsed from a sidecar document. -/
structure ActorInfo where
  name : String
  role : String
  thumb : Option String
deriving DecidableEq, Repr

/-- The normalized parse result of one sidecar document
(`VideoMetadata` in `backend/services/metadata.py`). -/
structure VideoMetadata where
  title : Option String := none
  plot : Option String := none
  outline : Option String := none
  rating : Option PyFloat := none
  userrating : Option PyFloat := none
  votes : Option Int := none
  year : Option Int := none
  premiered : Option String := none
  released : Option String := none
  runtime : Option Int := none
  genres : List String := []
  tags : List String := []
  country : Option String := none
  director : Option String := none
  studio : Option String := none
  actors : List ActorInfo := []
  poster_path : Option String := none
  fanart_path : Option String := none
  thumb : Option String := none
deriving DecidableEq

/-- The dataclass default record: every field `None` or the empty list. -/
def VideoMetadata.empty : VideoMetadata := {}

/-- Collect the stripped non-blank texts of a node list (the genre/tag
multi-value loop of `parse_nfo`). -/
def collectVals (els : List XML) : List String :=
  els.filterMap (fun n => pyText (some n))

/-- The poster loop of `parse_nfo`: walk the candidate finds in order; a
candidate that exists and whose text is a local reference is taken and the
loop breaks, otherwise the loop keeps going. -/
def firstLocalCandidate : List (Option XML) → Option String
  | [] => none
  | none :: rest => firstLocalCandidate rest
  | some el :: rest =>
    let t := pyText (some el)
    if is_local_path t then t else firstLocalCandidate rest

/-- The untyped-thumb loop of `parse_nfo`: first `<thumb>` not marked as a
poster whose text is a local reference. -/
def firstLocalThumb : List XML → Option String
  | [] => none
  | el :: rest =>
    if getAttr el "aspect" = some "poster" || getAttr el "type" = some "poster" then
      firstLocalThumb rest
    else
      let t := pyText (some el)
      if is_local_path t then t else firstLocalThumb rest

/-- Where a sidecar document read can end up: the file is missing, it does
not parse, or it parses to a root element. -/
inductive NfoSource where
  | missing
  | malformed
  | ok (root : XML)

/-- `parse_nfo` from `backend/services/metadata.py`.  A missing file or a
parse failure returns the all-default record (the Python code logs and
returns, it never raises).  On a parsed root the fields are extracted
exactly as in the source, including the element-truthiness quirk in the
fanart branch (`fanart.find("thumb") or fanart` falls back to the `fanart`
element itself whenever the nested `thumb` has no child elements). -/
def parse_nfo (src : NfoSource) : VideoMetadata :=
  match src with
  | .missing => VideoMetadata.empty
  | .malformed => VideoMetadata.empty
  | .ok root =>
    let cs := root.children
    let poster :=
      firstLocalCandidate
        [findTag cs "poster", findTagAttr cs "thumb" "aspect" "poster",
          findTagAttr cs "thumb" "type" "poster"]
    let thumbFromThumbnail :=
      match findTag cs "thumbnail" with
      | some el => let t := pyText (some el); if is_local_path t then t else none
      | none => none
    let thumbVal :=
      match thumbFromThumbnail with
      | some t => some t
      | none => firstLocalThumb (findallTag cs "thumb")
    let fanartVal :=
      match findTag cs "fanart" with
      | none => none
      | some fa =>
        let first :=
          match findTag fa.children "thumb" with
          | some th => if elemTruthy th then th else fa
          | none => fa
        let t := pyText (some first)
        if is_local_path t then t else none
    { title := pyText (findTag cs "title")
      plot := pyText (findTag cs "plot")
      outline := pyText (findTag cs "outline")
      rating := pyFloatOrNone (pyText (findTag cs "rating"))
      userrating := pyFloatOrNone (pyText (findTag cs "userrating"))
      votes := pyIntOrNone (pyText (findTag cs "votes"))
      year := pyIntOrNone (pyText (findTag cs "year"))
      premiered := pyText (findTag cs "premiered")
      released := pyText (findTag cs "released")
      runtime := pyIntOrNone (pyText (findTag cs "runtime"))
      country := pyText (findTag cs "country")
      director := pyText (findTag cs "director")
      studio := pyText (findTag cs "studio")
      genres := collectVals (findallTag cs "genre")
      tags := collectVals (findallTag cs "tag")
      actors :=
        (findallTag cs "actor").filterMap (fun a =>
          match pyText (findTag a.children "name") with
          | none => none
          | some nm =>
            some { name := nm
                   role := (pyText (findTag a.children "role")).getD ""
                   thumb := pyText (findTag a.children "thumb") })
      poster_path := poster
      fanart_path := fanartVal
      thumb := thumbVal }

/-- Removal pass of `update_nfo_genres_tags`: `root.remove(el)` for every
direct `<genre>` child, then for every direct `<tag>` child. -/
def removeGenreTagChildren (cs : List XML) : List XML :=
  (cs.filter (fun c => c.tag ≠ "genre")).filter (fun c => c.tag ≠ "tag")

/-- Strip-filter applied to a user-supplied name list (the
`if g and str(g).strip()` guard followed by `str(g).strip()`), shared by the
write-back and by the link-rebuild loops. -/
def cleanNames (l : List String) : List String :=
  l.filterMap (fun s => if pyStrip s = "" then none else some (pyStrip s))

/-- The `<genre>`/`<tag>` elements appended by `update_nfo_genres_tags`. -/
def mkNameElems (t : String) (l : List String) : List XML :=
  (cleanNames l).map (fun s => XML.elem t [] (some s) [])

/-- Indentation string used by `ET.indent`: newline plus `level` copies of
the four-space unit. -/
def indentation (level : Nat) : String :=
  ⟨'\n' :: (List.replicate (level * 4) ' ')⟩

/-- Whether ElementTree treats a text node as blank
(`not elem.text or not elem.text.strip()`). -/
def isBlankText (tx : Option String) : Bool := pyStrip (tx.getD "") = ""

mutual

/-- `ET.indent(tree, space="    ")` restricted to the fields this model
carries: for an element with children whose text is blank, the text becomes
the child indentation; children are processed recursively.  Elements with no
children are untouched.  (The `tail` rewriting of `ET.indent` concerns only
inter-element whitespace, which the model does not represent.) -/
def indentAt (level : Nat) : XML → XML
  | .elem t a tx cs =>
    if cs.isEmpty then .elem t a tx cs
    else
      .elem t a (if isBlankText tx then some (indentation (level + 1)) else tx)
        (indentChildren (level + 1) cs)

/-- Child list traversal of `ET.indent`. -/
def indentChildren (level : Nat) : List XML → List XML
  | [] => []
  | c :: rest => indentAt level c :: indentChildren level rest

end

/-- `update_nfo_genres_tags` from `backend/services/metadata.py`, acting on
the read outcome of the target document: a missing file raises
`FileNotFoundError` and a parse failure re-raises, both modelled as
`Except.error`; otherwise all direct `<genre>`/`<tag>` children are removed,
the cleaned new names are appended as direct children of the root (genres
first, then tags), the tree is re-indented, and the tree is written back
(serialisation is modelled as the identity on the tree). -/
def update_nfo_genres_tags (src : NfoSource) (genres tags : List String) :
    Except Unit XML :=
  match src with
  | .missing => .error ()
  | .malformed => .error ()
  | .ok root =>
    .ok (indentAt 0
      (.elem root.tag root.attrs root.text
        (removeGenreTagChildren root.children ++
          mkNameElems "genre" genres ++ mkNameElems "tag" tags)))

/-- The body of the while loop of `stream_playlist_m3u8`
(`backend/routes/api.py`): starting at `offset`, repeatedly cut
`min(segment_bytes, remaining)` rounded down to a packet multiple, stop when
the rounded chunk is zero, and emit `(length, offset)` pairs.  `fuel` bounds
the iteration count; every caller passes `fuel = N`, which suffices because
each emitted chunk is positive. -/
def planSegments (P S : Nat) : Nat → Nat → Nat → List (Nat × Nat)
  | 0, _, _ => []
  | fuel + 1, N, offset =>
    if offset < N then
      let chunk := min S (N - offset) / P * P
      if chunk = 0 then []
      else (chunk, offset) :: planSegments P S fuel N (offset + chunk)
    else []

/-- The pre-rounding of the configured nominal segment size in
`stream_playlist_m3u8`: round down to a packet multiple, clamp up to one
packet. -/
def effectiveSegmentBytes (P S : Nat) : Nat :=
  let s := S / P * P
  if s < P then P else s

/-- The full segment plan of `stream_playlist_m3u8` for a file of `N` bytes
with packet size `P` and configured nominal segment size `S`: the ordered
`(byte length, byte offset)` pairs emitted as `#EXT-X-BYTERANGE` lines. -/
def hlsPlan (P S N : Nat) : List (Nat × Nat) :=
  planSegments P (effectiveSegmentBytes P S) N N 0

/-- Sum of the emitted segment lengths. -/
def sumLengths (l : List (Nat × Nat)) : Nat := (l.map Prod.fst).sum

/-- The plan is contiguous from a starting offset: each pair sits exactly at
the running offset and advances it by its length. -/
def contiguousFrom : Nat → List (Nat × Nat) → Prop
  | _, [] => True
  | o, s :: rest => s.2 = o ∧ contiguousFrom (o + s.1) rest

instance contiguousFrom.inst : (o : Nat) → (l : List (Nat × Nat)) →
    Decidable (contiguousFrom o l)
  | _, [] => .isTrue trivial
  | o, s :: rest =>
    haveI := contiguousFrom.inst (o + s.1) rest
    inferInstanceAs (Decidable (s.2 = o ∧ contiguousFrom (o + s.1) rest))

/-- Outcome of one external analyzer invocation as `subprocess.run` reports
it: either the timeout elapsed, or the process completed with an exit code
and captured standard output. -/
inductive ProbeResult where
  | timeout
  | completed (returncode : Int) (stdout : String)

/-- The first-line extraction of `get_duration`
(`(result.stdout or "").strip().splitlines()[0] if result.stdout else ""`):
falsy stdout yields the empty line; stdout that strips to nothing makes the
`[0]` index raise `IndexError` (modelled as `none`, the caught-exception
path); otherwise the first line of the stripped output. -/
def firstStdoutLine (out : String) : Option String :=
  if out = "" then some ""
  else
    let t := pyStrip out
    if t = "" then none
    else some (firstSplitLine t)

/-- `get_duration` from `backend/ffprobe_util.py`: `None` on timeout,
non-zero exit, empty or unparsable first line, or when the sanity test
`duration <= 0 or duration > 86400 * 7` fires (an IEEE comparison, under
which NaN compares false on both sides); otherwise the parsed duration in
seconds.  Every Python failure path is an exception caught inside the
function, so the model is total. -/
def get_duration (res : ProbeResult) : Option PyFloat :=
  match res with
  | .timeout => none
  | .completed rc out =>
    if rc ≠ 0 then none
    else
      match firstStdoutLine out with
      | none => none
      | some line =>
        if line = "" then none
        else
          match pyFloat line with
          | none => none
          | some d =>
            if d.leB (.finite 0) || PyFloat.ltB (.finite 604800) d then none
            else some d

/-- The numeric reading `get_duration` makes of captured stdout: the first
line when it extracts and parses. -/
def stdoutNum (out : String) : Option PyFloat :=
  match firstStdoutLine out with
  | none => none
  | some line => if line = "" then none else pyFloat line

/-- `Path(p).suffix` of Python pathlib: the final dot-extension of the last
path component, empty when the name has no interior dot. -/
def pathSuffix (p : String) : String :=
  let name := (p.data.reverse.takeWhile (fun c => c ≠ '/')).reverse
  let ext := (name.reverse.takeWhile (fun c => c ≠ '.')).reverse
  if ext.length + 1 < name.length ∧ 0 < ext.length then
    ⟨'.' :: ext⟩
  else ""

/-- A catalog row of `media_items` as the synchronizer reads and writes it,
with the many-to-many vocabulary links carried as ordered name lists. -/
structure MediaItemRec where
  code : String
  title : Option String := none
  description : Option String := none
  nfoPath : String := ""
  videoPath : Option String := none
  videoType : Option String := none
  fileSize : Option Int := none
  fileMtime : Option Int := none
  lastScannedAt : Option Int := none
  genres : List String := []
  tags : List String := []
deriving DecidableEq, Repr

/-- `create_or_update_item` from `backend/services/media_service.py`:
create the row when absent, then overwrite path/size/time fields, set
title/description only from truthy parsed values (falling back to a fresh
NFO parse when no metadata record is passed), and clear-and-rebuild the
vocabulary links when a metadata record is passed.  `nfoSrc` is the read
outcome of `nfo_path`, consulted only on the fallback parse
(`load_metadata_from_nfo` returns `None` for a missing file and a parse of
the document otherwise). -/
def create_or_update_item (existing : Option MediaItemRec) (code : String)
    (nfoPath : String) (videoPath : Option String)
    (metadata : Option VideoMetadata) (nfoSrc : NfoSource)
    (fileMtime fileSize : Option Int) (now : Int) : MediaItemRec :=
  let item0 := existing.getD { code := code, nfoPath := nfoPath }
  let item1 : MediaItemRec :=
    { item0 with
      nfoPath := nfoPath
      videoPath := videoPath
      videoType := videoPath.map (fun p => pyLstripDots (pathSuffix p))
      fileSize := fileSize
      fileMtime := fileMtime
      lastScannedAt := some now }
  let applyTitleDesc : VideoMetadata → MediaItemRec → MediaItemRec := fun m it =>
    let it := match m.title with
      | some t => if t = "" then it else { it with title := some t }
      | none => it
    match m.plot with
    | some p => if p = "" then it else { it with description := some p }
    | none => it
  let item2 :=
    match metadata with
    | some m => applyTitleDesc m item1
    | none =>
      match nfoSrc with
      | .missing => item1
      | src => applyTitleDesc (parse_nfo src) item1
  match metadata with
  | some m =>
    { item2 with
      genres := cleanNames m.genres
      tags := cleanNames m.tags }
  | none => item2

/-- `findtext` of ElementTree as `_parse_nfo` in `backend/scanner.py` uses
it: `none` when no such child exists, otherwise the raw text (an element
with no text node reads as the empty string). -/
def pyFindtext (cs : List XML) (t : String) : Option String :=
  (findTag cs t).map (fun e => e.text.getD "")

/-- The template denylist `_TEMPLATE_NFO_NAMES` of `backend/scanner.py`. -/
def TEMPLATE_NFO_NAMES : List String :=
  ["movie", "template", "sample", "example", "test", "default", "blank"]

/-- `_is_template_nfo`: case-insensitive membership of the stem in the
denylist. -/
def is_template_stem (stem : String) : Bool :=
  TEMPLATE_NFO_NAMES.contains (pyLower stem)

/-- One sidecar discovery of the walk in `scan_media`, in traversal order:
the derived code (`nfo_path.stem`), the sidecar path, the co-located video
file found by `_find_video_for_code` (if any), the `(mtime, size)` stat of
the video-or-sidecar target (`none` on `OSError`), and the read outcome of
the sidecar document. -/
structure ScanFile where
  stem : String
  nfoPath : String
  video : Option String
  stat : Option (Int × Int)
  doc : NfoSource

/-- Association-list read of the unique-`code` catalog table
(`query(MediaItem).filter(code == c)`): the first row with the key. -/
def lookupDb : List (String × MediaItemRec) → String → Option MediaItemRec
  | [], _ => none
  | kv :: rest, c => if kv.1 = c then some kv.2 else lookupDb rest c

/-- In-place mutation of the row(s) keyed `c` to a new value. -/
def replaceDb : List (String × MediaItemRec) → String → MediaItemRec →
    List (String × MediaItemRec)
  | [], _, _ => []
  | kv :: rest, c, v =>
    if kv.1 = c then (c, v) :: replaceDb rest c v else kv :: replaceDb rest c v

/-- Create-or-mutate of the row keyed `c`: mutate the existing row, or
append a fresh one built from `none`. -/
def upsertDb (db : List (String × MediaItemRec)) (c : String)
    (f : Option MediaItemRec → MediaItemRec) : List (String × MediaItemRec) :=
  match lookupDb db c with
  | some old => replaceDb db c (f (some old))
  | none => db ++ [(c, f none)]

/-- The per-item body of the `scan_media` loop (`backend/scanner.py` lines
126-185) applied to the queried row: create the row when absent, overwrite
path/size/time fields, set title/description only from truthy `findtext`
results, and clear-and-rebuild the vocabulary links from the freshly parsed
name lists. -/
def scanApplyItem (old : Option MediaItemRec) (f : ScanFile) (now : Int) :
    MediaItemRec :=
  let title :=
    match f.doc with
    | .ok root => pyFindtext root.children "title"
    | _ => none
  let plot :=
    match f.doc with
    | .ok root => pyFindtext root.children "plot"
    | _ => none
  let meta := parse_nfo f.doc
  let item0 := old.getD { code := f.stem }
  let item1 : MediaItemRec :=
    { item0 with
      nfoPath := f.nfoPath
      videoPath := f.video
      videoType := f.video.map (fun p => pyLstripDots (pathSuffix p))
      fileSize := f.stat.map (fun st => st.2)
      fileMtime := f.stat.map (fun st => st.1)
      lastScannedAt := some now }
  let item2 :=
    match title with
    | some t => if t = "" then item1 else { item1 with title := some t }
    | none => item1
  let item3 :=
    match plot with
    | some p => if p = "" then item2 else { item2 with description := some p }
    | none => item2
  { item3 with genres := cleanNames meta.genres, tags := cleanNames meta.tags }

/-- The in-run state of one synchronization run: the catalog table, the
global seen-codes set, and the processed count. -/
structure ScanState where
  db : List (String × MediaItemRec)
  seen : List String
  processed : Nat

/-- One iteration of the `scan_media` discovery loop: skip templates, skip
codes already seen in this run, otherwise record the code as seen and upsert
the catalog row. -/
def scanStep (now : Int) (st : ScanState) (f : ScanFile) : ScanState :=
  if is_template_stem f.stem then st
  else if st.seen.contains f.stem then st
  else
    { db := upsertDb st.db f.stem (fun old => scanApplyItem old f now)
      seen := f.stem :: st.seen
      processed := st.processed + 1 }

/-- `scan_media` over the ordered list of sidecar discoveries of one run
(the `os.walk` traversal flattened in encounter order), starting from the
pre-run catalog: fold the per-file step with an initially empty seen set. -/
def scan_media (now : Int) (db0 : List (String × MediaItemRec))
    (files : List ScanFile) : ScanState :=
  files.foldl (scanStep now) { db := db0, seen := [], processed := 0 }

/-- The first file of the traversal that would be accepted for code `c`:
stem equal to `c` and not a template.  `scan_media` builds the catalog row
for `c` from exactly this file. -/
def firstHit (files : List ScanFile) (c : String) : Option ScanFile :=
  files.find? (fun f => f.stem = c && !is_template_stem f.stem)

/-- The vocabulary tables and item links visible to
`update_item_genres_tags`: catalog rows plus the `genres`/`tags` name
tables. -/
structure Catalog where
  items : List (String × MediaItemRec)
  genreRows : List String
  tagRows : List String

/-- `get_or_create_genre` / `get_or_create_tag` restricted to the name
table: fetch if present, else insert. -/
def getOrCreateRow (rows : List String) (name : String) : List String :=
  if rows.contains name then rows else rows ++ [name]

/-- The zero-linked sweep at the end of `update_item_genres_tags`: delete
every vocabulary row not linked by any item. -/
def sweepRows (rows : List String) (items : List (String × MediaItemRec))
    (links : MediaItemRec → List String) : List String :=
  rows.filter (fun r => items.any (fun kv => (links kv.2).contains r))

/-- `update_item_genres_tags` from `backend/services/media_service.py`:
look the item up (absent ⇒ `none`), require a truthy and existing sidecar
path (`fs` is the filesystem read of that path), strip-filter the new
names, write them back to the sidecar (any write-back failure is caught and
yields `none` with the catalog untouched), then clear-and-rebuild the
item's links through get-or-create, and finally delete zero-linked
vocabulary rows. -/
def update_item_genres_tags (cat : Catalog) (fs : String → NfoSource)
    (code : String) (genres tags : List String) :
    Option MediaItemRec × Catalog :=
  match lookupDb cat.items code with
  | none => (none, cat)
  | some item =>
    if item.nfoPath = "" then (none, cat)
    else
      match fs item.nfoPath with
      | .missing => (none, cat)
      | src =>
        let gs := cleanNames genres
        let ts := cleanNames tags
        match update_nfo_genres_tags src gs ts with
        | .error _ => (none, cat)
        | .ok _ =>
          let item2 := { item with genres := gs, tags := ts }
          let items2 := upsertDb cat.items code (fun _ => item2)
          let genreRows2 := gs.foldl getOrCreateRow cat.genreRows
          let tagRows2 := ts.foldl getOrCreateRow cat.tagRows
          (some item2,
            { items := items2
              genreRows := sweepRows genreRows2 items2 (fun it => it.genres)
              tagRows := sweepRows tagRows2 items2 (fun it => it.tags) })

/-- The text a parse reads from a text node: stripped, with a missing node
reading as the empty string. -/
def textContent (tx : Option String) : String := pyStrip (tx.getD "")

mutual

/-- Two elements carry the same parsed content: equal tag, equal attributes,
equal stripped text, and pairwise same-content children.  Re-indentation of
blank formatting whitespace preserves this relation. -/
inductive SameContent : XML → XML → Prop where
  | mk (t : String) (a : List (String × String)) (tx tx' : Option String)
      (cs cs' : List XML) :
      textContent tx = textContent tx' →
      SameContentList cs cs' →
      SameContent (.elem t a tx cs) (.elem t a tx' cs')

/-- Pointwise `SameContent` on child lists. -/
inductive SameContentList : List XML → List XML → Prop where
  | nil : SameContentList [] []
  | cons {x y : XML} {xs ys : List XML} :
      SameContent x y → SameContentList xs ys → SameContentList (x :: xs) (y :: ys)

end

/-- The `code` column is unique: no key occurs twice in the catalog table. -/
def keysUnique (db : List (String × MediaItemRec)) : Prop :=
  (db.map Prod.fst).Nodup

/-- The document of the C9 scenario: a poster-marked thumb next to an
untyped thumb. -/
def thumbAspectDoc : XML :=
  .elem "movie" []
    none
    [ .elem "title" [] (some "Test") [],
      .elem "thumb" [("aspect", "poster")] (some "poster.jpg") [],
      .elem "thumb" [] (some "thumb.jpg") [] ]

/-- A sidecar document whose fanart element wraps one nested thumb child
holding a local reference. -/
def fanartNestedDoc : XML :=
  .elem "movie" []
    none
    [ .elem "fanart" [] none [ .elem "thumb" [] (some "backdrop.jpg") [] ] ]

/-- A pre-existing catalog row with stored title and description, used to
exercise the synchronization update path. -/
def staleItem : MediaItemRec :=
  { code := "X", title := some "Old", description := some "Desc",
    nfoPath := "/media/X.nfo" }

/-- A sidecar document carrying only the title `First`. -/
def scanDocA : XML :=
  .elem "movie" [] none [ .elem "title" [] (some "First") [] ]

/-- A sidecar document carrying only the title `Second`. -/
def scanDocB : XML :=
  .elem "movie" [] none [ .elem "title" [] (some "Second") [] ]

/-- First discovery of code `AAA-1`, in root `/r1`. -/
def dupFileA : ScanFile :=
  { stem := "AAA-1", nfoPath := "/r1/AAA-1.nfo", video := none, stat := none,
    doc := .ok scanDocA }

/-- Second discovery of the same code `AAA-1`, in root `/r2`. -/
def dupFileB : ScanFile :=
  { stem := "AAA-1", nfoPath := "/r2/AAA-1.nfo", video := none, stat := none,
    doc := .ok scanDocB }

/-- A catalog row whose sidecar path points at an existing but unwritable
target, used to exercise the vocabulary-editing failure paths. -/
def vocabItem : MediaItemRec :=
  { code := "W", nfoPath := "/media/W.nfo", genres := ["g"], tags := ["t"] }

/-- A one-item catalog with linked vocabulary rows. -/
def vocabCat : Catalog :=
  { items := [("W", vocabItem)], genreRows := ["g"], tagRows := ["t"] }

/-- A parseable sidecar document with a title, one old genre and a nested
element, used to exercise the genre/tag write-back round trip. -/
def roundtripDoc : XML :=
  .elem "movie" [] (some "\n  ")
    [ .elem "title" [] (some "T") [],
      .elem "genre" [] (some "old") [],
      .elem "set" [("name", "s")] (some "  keep  ")
        [ .elem "inner" [] none [] ] ]

/-- C9: parsing a document with a poster-marked thumb (`poster.jpg`) and an
untyped thumb (`thumb.jpg`) yields `poster_path = "poster.jpg"` and
`thumb = "thumb.jpg"`, distinct values: the poster-marked element populates
only the poster field and the untyped element only the generic thumbnail
field. -/
theorem parse_nfo_poster_thumb_distinct :
    (parse_nfo (.ok thumbAspectDoc)).poster_path = some "poster.jpg" ∧
    (parse_nfo (.ok thumbAspectDoc)).thumb = some "thumb.jpg" ∧
    (parse_nfo (.ok thumbAspectDoc)).poster_path ≠
      (parse_nfo (.ok thumbAspectDoc)).thumb := by
  decide

/-- C6: in the code as written, a fanart element wrapping a nested thumb
child with a non-empty local reference does NOT populate the fanart field:
`fanart.find("thumb") or fanart` tests ElementTree truthiness, a childless
`<thumb>` element is falsy, so the branch reads the (blank) text of the
`<fanart>` element itself and leaves the field `None` — even though the
nested value is local and acceptable. -/
theorem parse_nfo_fanart_nested_thumb_dropped :
    (parse_nfo (.ok fanartNestedDoc)).fanart_path = none ∧
    is_local_path (some "backdrop.jpg") = true := by
  decide

/-- C7: `parse_nfo` is total — in this model it is a function — and on a
missing file or a malformed document it returns the record with every field
at its empty/default value. -/
theorem parse_nfo_malformed_default (src : NfoSource)
    (h : src = .missing ∨ src = .malformed) :
    parse_nfo src = VideoMetadata.empty := by
  rcases h with h | h <;> subst h <;> rfl

/-- Witness for C7 at the malformed input. -/
theorem parse_nfo_malformed_default_witness :
    parse_nfo .malformed = VideoMetadata.empty :=
  parse_nfo_malformed_default .malformed (Or.inr rfl)

/-- C2 counterexample: for N = 500, P = 188, S = 400 the planner does NOT
emit a second segment `124@376` — 124 bytes are less than one packet, the
rounded chunk is zero and the loop stops after the single `376@0` segment. -/
theorem hlsPlan_500_not_two_segments :
    hlsPlan 188 400 500 ≠ [(376, 0), (124, 376)] := by
  decide

/-- C2 amended: for N = 500, P = 188, S = 400 the plan is the single
segment `376@0`, leaving 124 undistributed trailing bytes (not 0). -/
theorem hlsPlan_500_single_segment :
    hlsPlan 188 400 500 = [(376, 0)] ∧
    500 - sumLengths (hlsPlan 188 400 500) = 124 := by
  decide

/-- C8 counterexample: at exit code 0 with stdout `nan`, `float("nan")`
succeeds and the sanity test `duration <= 0 or duration > 86400 * 7` is an
IEEE comparison under which NaN compares false on both sides, so the code
returns NaN — not the `None` the claim demands for a value that is not
greater than 0 (NaN is not greater than 0: the comparison `0 < nan` is
false). -/
theorem get_duration_nan_escapes :
    PyFloat.ltB (.finite 0) .nan = false ∧
    get_duration (.completed 0 "nan") = some .nan := by
  decide

/-- The zero-exit path of `get_duration` as a function of the stdout
reading. -/
theorem get_duration_zero_eq (out : String) :
    get_duration (.completed 0 out) =
      match stdoutNum out with
      | none => none
      | some d =>
        if d.leB (.finite 0) || PyFloat.ltB (.finite 604800) d then none
        else some d := by
  unfold get_duration stdoutNum
  cases hf : firstStdoutLine out with
  | none => simp [hf]
  | some line =>
    by_cases hl : line = ""
    · simp [hf, hl]
    · cases hp : pyFloat line with
      | none => simp [hf, hl, hp]
      | some d => simp [hf, hl, hp]

/-- C8 amended: the duration query returns `none` whenever the analyzer
times out, exits non-zero, the first output line is empty or does not
parse under `float()`, the parsed value is finite and not greater than 0
or greater than 604800 seconds, or the parsed value is infinite; an
in-window finite value is returned as parsed.  Because the sanity test is
the IEEE comparison `duration <= 0 or duration > 86400 * 7`, a parsed NaN
compares false on both sides, escapes rejection and is returned as NaN
rather than rejected. -/
theorem get_duration_policy :
    get_duration .timeout = none ∧
    (∀ rc out, rc ≠ 0 → get_duration (.completed rc out) = none) ∧
    (∀ out, stdoutNum out = none → get_duration (.completed 0 out) = none) ∧
    (∀ out q, stdoutNum out = some (.finite q) → q ≤ 0 ∨ (604800 : ℚ) < q →
      get_duration (.completed 0 out) = none) ∧
    (∀ out q, stdoutNum out = some (.finite q) → 0 < q → q ≤ 604800 →
      get_duration (.completed 0 out) = some (.finite q)) ∧
    (∀ out, stdoutNum out = some .inf → get_duration (.completed 0 out) = none) ∧
    (∀ out, stdoutNum out = some .neginf →
      get_duration (.completed 0 out) = none) ∧
    (∀ out, stdoutNum out = some .nan →
      get_duration (.completed 0 out) = some .nan) := by
  refine ⟨rfl, ?_, ?_, ?_, ?_, ?_, ?_, ?_⟩
  · intro rc out h
    simp [get_duration, h]
  · intro out h
    rw [get_duration_zero_eq, h]
  · intro out q h hw
    rw [get_duration_zero_eq, h]
    have hc : ((PyFloat.finite q).leB (.finite 0) ||
        PyFloat.ltB (.finite 604800) (.finite q)) = true := by
      rcases hw with h1 | h2
      · simp [PyFloat.leB, h1]
      · simp [PyFloat.leB, PyFloat.ltB, h2]
    simp [hc]
  · intro out q h h0 h7
    rw [get_duration_zero_eq, h]
    have hc : ((PyFloat.finite q).leB (.finite 0) ||
        PyFloat.ltB (.finite 604800) (.finite q)) = false := by
      have hn0 : ¬ (q ≤ 0) := not_le.mpr h0
      have hn7 : ¬ ((604800 : ℚ) < q) := not_lt.mpr h7
      simp [PyFloat.leB, PyFloat.ltB, hn0, hn7]
    simp [hc]
  · intro out h
    rw [get_duration_zero_eq, h]
    rfl
  · intro out h
    rw [get_duration_zero_eq, h]
    rfl
  · intro out h
    rw [get_duration_zero_eq, h]
    rfl

/-- Witness for C8's amended theorem: an in-window integer duration is
returned as parsed, a negative value and a non-zero exit give `none`, a
NaN line is returned as NaN, and a timeout gives `none`. -/
theorem get_duration_policy_witness :
    get_duration (.completed 0 "12\n") = some (.finite 12) ∧
    get_duration (.completed 0 "-1") = none ∧
    get_duration (.completed 0 " nan ") = some .nan ∧
    get_duration (.completed 1 "12") = none ∧
    get_duration .timeout = none :=
  ⟨get_duration_policy.2.2.2.2.1 "12\n" 12 (by decide) (by decide) (by decide),
   get_duration_policy.2.2.2.1 "-1" (-1) (by decide) (Or.inl (by decide)),
   get_duration_policy.2.2.2.2.2.2.2 " nan " (by decide),
   get_duration_policy.2.1 1 "12" (by decide),
   get_duration_policy.1⟩

/-- C3 counterexample: a sync pass whose parse result has no title and no
plot does NOT overwrite the stored title/description — the update is
guarded by Python truthiness (`if metadata.title:`), so the stale values
`"Old"`/`"Desc"` survive instead of being replaced by the freshly derived
`None`. -/
theorem create_or_update_item_keeps_stale_title :
    VideoMetadata.empty.title = none ∧ VideoMetadata.empty.plot = none ∧
    (create_or_update_item (some staleItem) "X" "/media/X.nfo" none
      (some VideoMetadata.empty) .missing none none 0).title = some "Old" ∧
    (create_or_update_item (some staleItem) "X" "/media/X.nfo" none
      (some VideoMetadata.empty) .missing none none 0).description = some "Desc" := by
  decide

/-- C3 amended: on every sync pass over an existing row, sidecar path,
media file path, media type, file size, modification time,
last-synchronized timestamp and the vocabulary link lists are
unconditionally overwritten with the freshly derived values, but title and
description are overwritten only when the freshly parsed value is truthy
(present and non-empty); an absent or empty parse value leaves the stored
one unchanged. -/
theorem create_or_update_item_refresh_policy
    (old : MediaItemRec) (code nfoPath : String) (vp : Option String)
    (m : VideoMetadata) (src : NfoSource) (mt sz : Option Int) (now : Int)
    (upd : MediaItemRec)
    (hupd : upd = create_or_update_item (some old) code nfoPath vp (some m) src mt sz now) :
    upd.nfoPath = nfoPath ∧ upd.videoPath = vp ∧
    upd.videoType = vp.map (fun p => pyLstripDots (pathSuffix p)) ∧
    upd.fileSize = sz ∧ upd.fileMtime = mt ∧ upd.lastScannedAt = some now ∧
    upd.genres = cleanNames m.genres ∧ upd.tags = cleanNames m.tags ∧
    ((m.title = none ∨ m.title = some "") → upd.title = old.title) ∧
    (∀ t, m.title = some t → t ≠ "" → upd.title = some t) ∧
    ((m.plot = none ∨ m.plot = some "") → upd.description = old.description) ∧
    (∀ p, m.plot = some p → p ≠ "" → upd.description = some p) := by
  subst hupd
  cases htm : m.title <;> cases hpm : m.plot <;>
    simp [create_or_update_item, htm, hpm] <;>
    split_ifs <;> simp_all

/-- Witness for C3's amended theorem at a concrete stale row and an
all-default parse result. -/
theorem create_or_update_item_refresh_policy_witness :
    (create_or_update_item (some staleItem) "Y" "/media/Y.nfo" none
      (some VideoMetadata.empty) .missing none none 5).title = staleItem.title :=
  (create_or_update_item_refresh_policy staleItem "Y" "/media/Y.nfo" none
    VideoMetadata.empty .missing none none 5 _ rfl).2.2.2.2.2.2.2.2.1 (Or.inl rfl)

/-- The pre-rounded nominal segment size is a packet multiple of at least
one packet, for any configured value. -/
theorem effectiveSegmentBytes_pos (P S : Nat) :
    P ≤ effectiveSegmentBytes P S ∧ P ∣ effectiveSegmentBytes P S := by
  unfold effectiveSegmentBytes
  by_cases h : S / P * P < P
  · simp [h]
  · simp only [h, if_false]
    exact ⟨by omega, dvd_mul_left P (S / P)⟩

/-- Invariant of the emission loop: from any reachable offset, the emitted
lengths sum to the packet-rounded remainder, every emitted segment is a
positive packet multiple lying inside the file, and segments are
contiguous. -/
theorem planSegments_spec (P S : Nat) (hP : 0 < P) (hSP : P ≤ S) :
    ∀ (fuel N offset : Nat), offset ≤ N → N - offset ≤ fuel →
      sumLengths (planSegments P S fuel N offset) = P * ((N - offset) / P) ∧
      (∀ seg ∈ planSegments P S fuel N offset,
        0 < seg.1 ∧ P ∣ seg.1 ∧ seg.2 + seg.1 ≤ N) ∧
      contiguousFrom offset (planSegments P S fuel N offset) := by
  intro fuel
  induction fuel with
  | zero =>
    intro N offset h1 h2
    have hNo : N - offset = 0 := by omega
    simp [planSegments, sumLengths, contiguousFrom, hNo]
  | succ fuel ih =>
    intro N offset h1 h2
    by_cases hlt : offset < N
    · have hplan : planSegments P S (fuel + 1) N offset =
          (if min S (N - offset) / P * P = 0 then []
           else (min S (N - offset) / P * P, offset) ::
             planSegments P S fuel N (offset + min S (N - offset) / P * P)) := by
        simp [planSegments, hlt]
      by_cases hc : min S (N - offset) / P * P = 0
      · rw [hplan, if_pos hc]
        have hq0 : min S (N - offset) / P = 0 := by
          rcases Nat.mul_eq_zero.mp hc with h | h
          · exact h
          · omega
        have hminlt : min S (N - offset) < P := (Nat.div_eq_zero_iff hP).mp hq0
        have hremlt : N - offset < P := by
          rcases le_total S (N - offset) with h | h
          · rw [min_eq_left h] at hminlt; omega
          · rwa [min_eq_right h] at hminlt
        have : (N - offset) / P = 0 := Nat.div_eq_of_lt hremlt
        simp [sumLengths, contiguousFrom, this]
      · rw [hplan, if_neg hc]
        have hchunk_le : min S (N - offset) / P * P ≤ N - offset :=
          le_trans (Nat.div_mul_le_self _ _) (min_le_right _ _)
        have hpos : 0 < min S (N - offset) / P * P := Nat.pos_of_ne_zero hc
        have hoff : offset + min S (N - offset) / P * P ≤ N := by omega
        have hfuel : N - (offset + min S (N - offset) / P * P) ≤ fuel := by omega
        obtain ⟨ihsum, ihmem, ihcont⟩ := ih N (offset + min S (N - offset) / P * P) hoff hfuel
        refine ⟨?_, ?_, ?_⟩
        · have hcomm : min S (N - offset) / P * P = P * (min S (N - offset) / P) :=
            Nat.mul_comm _ _
          have e1 : N - (offset + min S (N - offset) / P * P) =
              (N - offset) - P * (min S (N - offset) / P) := by
            rw [Nat.mul_comm P (min S (N - offset) / P)]; omega
          have e2 : ((N - offset) - P * (min S (N - offset) / P)) / P =
              (N - offset) / P - min S (N - offset) / P :=
            Nat.sub_mul_div _ _ _ (by rw [Nat.mul_comm]; exact hchunk_le)
          have hqle : min S (N - offset) / P ≤ (N - offset) / P :=
            (Nat.le_div_iff_mul_le hP).mpr hchunk_le
          have e4 : P * ((N - offset) / P - min S (N - offset) / P) =
              P * ((N - offset) / P) - P * (min S (N - offset) / P) :=
            Nat.mul_sub _ _ _
          have hsplit : sumLengths ((min S (N - offset) / P * P, offset) ::
              planSegments P S fuel N (offset + min S (N - offset) / P * P)) =
              min S (N - offset) / P * P +
              sumLengths (planSegments P S fuel N
                (offset + min S (N - offset) / P * P)) := by
            simp [sumLengths]
          have hble : P * (min S (N - offset) / P) ≤ P * ((N - offset) / P) :=
            Nat.mul_le_mul_left P hqle
          rw [hsplit, ihsum, e1, e2, e4]
          omega
        · intro seg hseg
          rcases List.mem_cons.mp hseg with h | h
          · subst h
            exact ⟨hpos, dvd_mul_left P _, by omega⟩
          · exact ihmem seg h
        · exact ⟨rfl, ihcont⟩
    · have hNo : N - offset = 0 := by omega
      simp [planSegments, hlt, sumLengths, contiguousFrom, hNo]

/-- A contiguous plan of positive-length segments has strictly increasing
offsets. -/
theorem chain_of_contiguousFrom :
    ∀ (l : List (Nat × Nat)) (o : Nat), contiguousFrom o l →
      (∀ seg ∈ l, 0 < seg.1) →
      List.Chain' (fun a b : Nat × Nat => a.2 < b.2) l := by
  intro l
  induction l with
  | nil => intro o _ _; simp
  | cons x rest ih =>
    intro o hc hpos
    cases rest with
    | nil => simp
    | cons y rest2 =>
      obtain ⟨hx, hc2⟩ := hc
      have hy : y.2 = o + x.1 := hc2.1
      rw [List.chain'_cons]
      constructor
      · have := hpos x (List.mem_cons_self _ _)
        omega
      · exact ih (o + x.1) hc2 (fun seg hs => hpos seg (List.mem_cons_of_mem _ hs))

/-- C1: for every packet size P > 0, nominal segment size S ≥ P and file
size N, the emitted segment lengths sum to exactly `N - (N mod P)`, every
emitted length is a positive multiple of P, offsets start at 0 and are
contiguous (each segment begins exactly where the previous one ends) and
strictly increasing, and no segment's byte range extends past byte N. -/
theorem hlsPlan_spec (P S N : Nat) (hP : 0 < P) (_hSP : P ≤ S) :
    sumLengths (hlsPlan P S N) = N - N % P ∧
    (∀ seg ∈ hlsPlan P S N, 0 < seg.1 ∧ P ∣ seg.1 ∧ seg.2 + seg.1 ≤ N) ∧
    contiguousFrom 0 (hlsPlan P S N) ∧
    List.Chain' (fun a b : Nat × Nat => a.2 < b.2) (hlsPlan P S N) := by
  obtain ⟨hS1, hS2⟩ := effectiveSegmentBytes_pos P S
  obtain ⟨hsum, hmem, hcont⟩ :=
    planSegments_spec P (effectiveSegmentBytes P S) hP hS1 N N 0
      (Nat.zero_le N) (le_refl _)
  refine ⟨?_, hmem, hcont, chain_of_contiguousFrom _ 0 hcont
    (fun seg hs => (hmem seg hs).1)⟩
  simp only [Nat.sub_zero] at hsum
  rw [hlsPlan, hsum]
  have := Nat.div_add_mod N P
  omega

/-- Witness for C1 at P = 2, S = 5, N = 9 (plan `[(4,0), (4,4)]`). -/
theorem hlsPlan_spec_witness :
    0 < 2 ∧ 2 ≤ 5 ∧
    (sumLengths (hlsPlan 2 5 9) = 9 - 9 % 2 ∧
     (∀ seg ∈ hlsPlan 2 5 9, 0 < seg.1 ∧ 2 ∣ seg.1 ∧ seg.2 + seg.1 ≤ 9) ∧
     contiguousFrom 0 (hlsPlan 2 5 9) ∧
     List.Chain' (fun a b : Nat × Nat => a.2 < b.2) (hlsPlan 2 5 9)) :=
  ⟨by decide, by decide, hlsPlan_spec 2 5 9 (by decide) (by decide)⟩

/-- Reading an appended table consults the left part first. -/
theorem lookupDb_append (db l2 : List (String × MediaItemRec)) (x : String) :
    lookupDb (db ++ l2) x =
      match lookupDb db x with
      | some v => some v
      | none => lookupDb l2 x := by
  induction db with
  | nil => simp [lookupDb]
  | cons kv rest ih =>
    by_cases hk : kv.1 = x
    · simp [lookupDb, hk]
    · simp only [List.cons_append, lookupDb, if_neg hk]
      exact ih

/-- Replacing an existing row makes the read return the new value. -/
theorem lookupDb_replaceDb_self (db : List (String × MediaItemRec)) (c : String)
    (v : MediaItemRec) (h : lookupDb db c ≠ none) :
    lookupDb (replaceDb db c v) c = some v := by
  induction db with
  | nil => simp [lookupDb] at h
  | cons kv rest ih =>
    by_cases hk : kv.1 = c
    · simp [replaceDb, hk, lookupDb]
    · simp only [lookupDb, if_neg hk] at h
      simp only [replaceDb, if_neg hk, lookupDb, if_neg hk]
      exact ih h

/-- Replacing one key leaves reads of other keys unchanged. -/
theorem lookupDb_replaceDb_ne (db : List (String × MediaItemRec)) (c : String)
    (v : MediaItemRec) (x : String) (h : x ≠ c) :
    lookupDb (replaceDb db c v) x = lookupDb db x := by
  induction db with
  | nil => simp [replaceDb]
  | cons kv rest ih =>
    by_cases hk : kv.1 = c
    · have hcx : ¬ (c = x) := fun hcx => h hcx.symm
      simp only [replaceDb, if_pos hk, lookupDb, if_neg hcx, hk, ih]
    · simp only [replaceDb, if_neg hk, lookupDb]
      by_cases hx : kv.1 = x
      · simp [hx]
      · simp [hx, ih]

/-- An upsert makes the read of its key return the freshly built row. -/
theorem lookupDb_upsertDb_self (db : List (String × MediaItemRec)) (c : String)
    (f : Option MediaItemRec → MediaItemRec) :
    lookupDb (upsertDb db c f) c = some (f (lookupDb db c)) := by
  unfold upsertDb
  cases hl : lookupDb db c with
  | none =>
    rw [lookupDb_append, hl]
    simp [lookupDb]
  | some old =>
    rw [lookupDb_replaceDb_self db c _ (by rw [hl]; exact fun h => Option.noConfusion h)]

/-- An upsert leaves reads of other keys unchanged. -/
theorem lookupDb_upsertDb_ne (db : List (String × MediaItemRec)) (c : String)
    (f : Option MediaItemRec → MediaItemRec) (x : String) (h : x ≠ c) :
    lookupDb (upsertDb db c f) x = lookupDb db x := by
  unfold upsertDb
  cases hl : lookupDb db c with
  | none =>
    rw [lookupDb_append]
    cases hx : lookupDb db x with
    | some v => rfl
    | none =>
      have : ¬ (c = x) := fun hcx => h hcx.symm
      simp [lookupDb, this]
  | some old => exact lookupDb_replaceDb_ne db c _ x h

/-- Row replacement does not change the key column. -/
theorem replaceDb_keys (db : List (String × MediaItemRec)) (c : String)
    (v : MediaItemRec) :
    (replaceDb db c v).map Prod.fst = db.map Prod.fst := by
  induction db with
  | nil => rfl
  | cons kv rest ih =>
    by_cases hk : kv.1 = c
    · simp [replaceDb, hk, ih]
    · simp [replaceDb, hk, ih]

/-- A failed read means the key is not in the table. -/
theorem lookupDb_none_not_mem (db : List (String × MediaItemRec)) (c : String)
    (h : lookupDb db c = none) : c ∉ db.map Prod.fst := by
  induction db with
  | nil => simp
  | cons kv rest ih =>
    by_cases hk : kv.1 = c
    · simp [lookupDb, hk] at h
    · simp only [lookupDb, if_neg hk] at h
      simp only [List.map_cons, List.mem_cons]
      rintro (h1 | h2)
      · exact hk h1.symm
      · exact ih h h2

/-- Upserting preserves uniqueness of the `code` column. -/
theorem keysUnique_upsertDb (db : List (String × MediaItemRec)) (c : String)
    (f : Option MediaItemRec → MediaItemRec) (h : keysUnique db) :
    keysUnique (upsertDb db c f) := by
  unfold upsertDb
  cases hl : lookupDb db c with
  | none =>
    unfold keysUnique at *
    rw [List.map_append]
    rw [List.nodup_append]
    refine ⟨h, List.nodup_singleton _, ?_⟩
    intro a ha hb
    simp only [List.map_cons, List.map_nil, List.mem_singleton] at hb
    rw [hb] at ha
    exact lookupDb_none_not_mem db c hl ha
  | some old =>
    unfold keysUnique at *
    rw [replaceDb_keys]
    exact h

/-- Invariant of the synchronization fold: with the codes in `seen` frozen,
the final row of any code is decided by the first accepted occurrence in
the remaining traversal, and codes without such an occurrence keep their
pre-fold row. -/
theorem scan_foldl_lookup (now : Int) :
    ∀ (files : List ScanFile) (db : List (String × MediaItemRec))
      (seen : List String) (proc : Nat) (c : String),
      lookupDb (List.foldl (scanStep now) ⟨db, seen, proc⟩ files).db c =
        if seen.contains c then lookupDb db c
        else
          match firstHit files c with
          | some f => some (scanApplyItem (lookupDb db c) f now)
          | none => lookupDb db c := by
  intro files
  induction files with
  | nil =>
    intro db seen proc c
    simp only [List.foldl_nil, firstHit, List.find?_nil]
    split <;> rfl
  | cons f rest ih =>
    intro db seen proc c
    rw [List.foldl_cons]
    by_cases ht : is_template_stem f.stem
    · have hstep : scanStep now ⟨db, seen, proc⟩ f = ⟨db, seen, proc⟩ := by
        simp [scanStep, ht]
      rw [hstep, ih]
      have hfh : firstHit (f :: rest) c = firstHit rest c := by
        unfold firstHit
        rw [List.find?_cons]
        have : (f.stem = c && !is_template_stem f.stem) = false := by
          simp [ht]
        rw [this]
      rw [hfh]
    · by_cases hs : seen.contains f.stem
      · have hstep : scanStep now ⟨db, seen, proc⟩ f = ⟨db, seen, proc⟩ := by
          simp only [scanStep]
          rw [if_neg ht, if_pos hs]
        rw [hstep, ih]
        by_cases hc : c = f.stem
        · subst hc
          rw [if_pos hs, if_pos hs]
        · have hfh : firstHit (f :: rest) c = firstHit rest c := by
            unfold firstHit
            rw [List.find?_cons]
            have : (f.stem = c && !is_template_stem f.stem) = false := by
              simp
              intro h
              exact absurd h.symm hc
            rw [this]
          rw [hfh]
      · have hstep : scanStep now ⟨db, seen, proc⟩ f =
            ⟨upsertDb db f.stem (fun old => scanApplyItem old f now),
              f.stem :: seen, proc + 1⟩ := by
          simp only [scanStep]
          rw [if_neg ht, if_neg hs]
        rw [hstep, ih]
        by_cases hc : c = f.stem
        · subst hc
          have hseen2 : (f.stem :: seen).contains f.stem = true := by
            simp [List.contains_cons]
          rw [if_pos hseen2]
          have hs' : seen.contains f.stem = false := by
            cases h2 : seen.contains f.stem
            · rfl
            · exact absurd h2 hs
          rw [hs']
          simp only [Bool.false_eq_true, if_false]
          have hfh : firstHit (f :: rest) f.stem = some f := by
            unfold firstHit
            rw [List.find?_cons]
            have : (f.stem = f.stem && !is_template_stem f.stem) = true := by
              simp [ht]
            rw [this]
          rw [hfh]
          exact lookupDb_upsertDb_self db f.stem (fun old => scanApplyItem old f now)
        · have hseen2 : ((f.stem :: seen).contains c) = seen.contains c := by
            simp only [List.contains_cons]
            have : (c == f.stem) = false := by
              simp
              exact hc
            rw [this, Bool.false_or]
          rw [hseen2]
          rw [lookupDb_upsertDb_ne db f.stem (fun old => scanApplyItem old f now) c hc]
          have hfh : firstHit (f :: rest) c = firstHit rest c := by
            unfold firstHit
            rw [List.find?_cons]
            have : (f.stem = c && !is_template_stem f.stem) = false := by
              simp
              intro h
              exact absurd h.symm hc
            rw [this]
          rw [hfh]

/-- The synchronization fold preserves uniqueness of the `code` column. -/
theorem scan_foldl_keysUnique (now : Int) :
    ∀ (files : List ScanFile) (st : ScanState), keysUnique st.db →
      keysUnique (List.foldl (scanStep now) st files).db := by
  intro files
  induction files with
  | nil => intro st h; exact h
  | cons f rest ih =>
    intro st h
    rw [List.foldl_cons]
    apply ih
    unfold scanStep
    split
    · exact h
    · split
      · exact h
      · exact keysUnique_upsertDb st.db f.stem (fun old => scanApplyItem old f now) h

/-- C4: after a synchronization run the catalog keys are unique (exactly
one entry per code), and for every code the final entry is built from the
first accepted occurrence in traversal order — across all directories and
roots of the run — applied to the pre-run row; every later occurrence of
the same code is skipped and does not modify the entry, and codes never
accepted keep their pre-run row. -/
theorem scan_media_first_wins (now : Int) (db0 : List (String × MediaItemRec))
    (files : List ScanFile) (h : keysUnique db0) :
    keysUnique (scan_media now db0 files).db ∧
    ∀ c, lookupDb (scan_media now db0 files).db c =
      match firstHit files c with
      | some f => some (scanApplyItem (lookupDb db0 c) f now)
      | none => lookupDb db0 c := by
  constructor
  · exact scan_foldl_keysUnique now files ⟨db0, [], 0⟩ h
  · intro c
    have := scan_foldl_lookup now files db0 [] 0 c
    simpa [scan_media] using this

/-- Witness for C4: two discoveries of code `AAA-1` in different roots; the
run keeps unique keys and the entry built from the first discovery. -/
theorem scan_media_first_wins_witness :
    keysUnique (scan_media 0 [] [dupFileA, dupFileB]).db ∧
    lookupDb (scan_media 0 [] [dupFileA, dupFileB]).db "AAA-1" =
      some (scanApplyItem none dupFileA 0) :=
  ⟨(scan_media_first_wins 0 [] [dupFileA, dupFileB] (by simp [keysUnique])).1,
   (scan_media_first_wins 0 [] [dupFileA, dupFileB] (by simp [keysUnique])).2 "AAA-1"⟩

/-- C10: whenever the sidecar write-back step of the vocabulary-editing
operation fails — the item is not found, the stored sidecar path is empty
or points to a missing file, or the write-back raises (the document does
not parse) — the operation returns `none` and the catalog is returned
unchanged: no links are cleared, no vocabulary rows are created, and the
zero-linked sweep does not run. -/
theorem update_item_genres_tags_failure_noop
    (cat : Catalog) (fs : String → NfoSource) (code : String)
    (genres tags : List String)
    (h : lookupDb cat.items code = none ∨
      ∃ item, lookupDb cat.items code = some item ∧
        (item.nfoPath = "" ∨ fs item.nfoPath = .missing ∨
          fs item.nfoPath = .malformed)) :
    update_item_genres_tags cat fs code genres tags = (none, cat) := by
  rcases h with h | ⟨item, hit, hcase⟩
  · simp [update_item_genres_tags, h]
  · rcases hcase with h1 | h2 | h3
    · simp [update_item_genres_tags, hit, h1]
    · by_cases he : item.nfoPath = ""
      · simp [update_item_genres_tags, hit, he]
      · simp [update_item_genres_tags, hit, he, h2]
    · by_cases he : item.nfoPath = ""
      · simp [update_item_genres_tags, hit, he]
      · simp [update_item_genres_tags, hit, he, h3, update_nfo_genres_tags]

/-- Witness for C10: a malformed sidecar makes the write-back raise; the
call returns `none` and the catalog value is untouched. -/
theorem update_item_genres_tags_failure_noop_witness :
    update_item_genres_tags vocabCat (fun _ => .malformed) "W" ["newg"] ["newt"] =
      (none, vocabCat) :=
  update_item_genres_tags_failure_noop vocabCat (fun _ => .malformed) "W"
    ["newg"] ["newt"]
    (Or.inr ⟨vocabItem, rfl, Or.inr (Or.inr rfl)⟩)

/-- Dropping whitespace consumes a run of spaces entirely. -/
theorem dropWhile_replicate_space (m : Nat) :
    List.dropWhile isSpaceChar (List.replicate m ' ') = [] := by
  induction m with
  | zero => rfl
  | succ m ih =>
    rw [List.replicate_succ, List.dropWhile_cons]
    have hsp : isSpaceChar ' ' = true := by decide
    rw [hsp]
    simpa using ih

/-- An indentation string strips to nothing. -/
theorem pyStrip_indentation (n : Nat) : pyStrip (indentation n) = "" := by
  have h1 : List.dropWhile isSpaceChar ('\n' :: List.replicate (n * 4) ' ') = [] := by
    rw [List.dropWhile_cons]
    have hnl : isSpaceChar '\n' = true := by decide
    rw [hnl]
    simpa using dropWhile_replicate_space (n * 4)
  show (⟨((('\n' :: List.replicate (n * 4) ' ').dropWhile
      isSpaceChar).reverse.dropWhile isSpaceChar).reverse⟩ : String) = ""
  rw [h1]
  rfl

/-- An indentation text node carries no parsed content. -/
theorem textContent_indentation (n : Nat) :
    textContent (some (indentation n)) = "" := by
  show pyStrip (indentation n) = ""
  exact pyStrip_indentation n

/-- Blank text nodes carry no parsed content. -/
theorem isBlankText_textContent (tx : Option String) (h : isBlankText tx = true) :
    textContent tx = "" := by
  unfold isBlankText at h
  unfold textContent
  exact of_decide_eq_true h

/-- The child traversal of the indenter is a map. -/
theorem indentChildren_eq_map (level : Nat) (cs : List XML) :
    indentChildren level cs = cs.map (indentAt level) := by
  induction cs with
  | nil => rfl
  | cons c rest ih => rw [indentChildren, List.map_cons, ih]

/-- Indentation never changes an element's tag. -/
theorem indentAt_tag (level : Nat) (x : XML) : (indentAt level x).tag = x.tag := by
  cases x with
  | elem t a tx cs =>
    rw [indentAt]
    split <;> rfl

/-- Indentation leaves childless elements untouched. -/
theorem indentAt_leaf (level : Nat) (x : XML) (h : x.children = []) :
    indentAt level x = x := by
  cases x with
  | elem t a tx cs =>
    have hc : cs = [] := h
    subst hc
    rfl

mutual

/-- Re-indentation preserves parsed content. -/
theorem sameContent_indent : ∀ (x : XML) (level : Nat),
    SameContent x (indentAt level x)
  | .elem t a tx cs, level => by
    rw [indentAt]
    by_cases h : cs.isEmpty
    · rw [if_pos h]
      have hc : cs = [] := List.isEmpty_iff.mp h
      subst hc
      exact .mk t a tx tx [] [] rfl .nil
    · rw [if_neg h]
      refine .mk t a tx _ cs _ ?_ (sameContentList_indent cs (level + 1))
      by_cases hb : isBlankText tx
      · rw [if_pos hb, isBlankText_textContent tx hb, textContent_indentation]
      · rw [if_neg hb]

/-- Re-indentation of a child list preserves parsed content pointwise. -/
theorem sameContentList_indent : ∀ (cs : List XML) (level : Nat),
    SameContentList cs (indentChildren level cs)
  | [], _ => .nil
  | c :: rest, level =>
    .cons (sameContent_indent c level) (sameContentList_indent rest level)

end

/-- The strip-filter is the identity on already-clean name lists. -/
theorem cleanNames_of_clean : ∀ (gs : List String),
    (∀ g ∈ gs, pyStrip g = g ∧ g ≠ "") → cleanNames gs = gs := by
  intro gs
  induction gs with
  | nil => intro _; rfl
  | cons g rest ih =>
    intro h
    obtain ⟨h1, h2⟩ := h g (List.mem_cons_self g rest)
    have hrest := ih (fun x hx => h x (List.mem_cons_of_mem g hx))
    unfold cleanNames at hrest ⊢
    rw [List.filterMap_cons, h1, if_neg h2, hrest]

/-- Reading back leaf name elements returns the written names. -/
theorem collectVals_map_leaf (t : String) : ∀ (gs : List String),
    (∀ g ∈ gs, pyStrip g = g ∧ g ≠ "") →
    collectVals (gs.map (fun s => XML.elem t [] (some s) [])) = gs := by
  intro gs
  induction gs with
  | nil => intro _; rfl
  | cons g rest ih =>
    intro h
    obtain ⟨h1, h2⟩ := h g (List.mem_cons_self g rest)
    have hrest := ih (fun x hx => h x (List.mem_cons_of_mem g hx))
    unfold collectVals at hrest ⊢
    rw [List.map_cons, List.filterMap_cons]
    have hval : pyText (some (XML.elem t [] (some g) [])) = some g := by
      simp [pyText, XML.text, h1, h2]
    rw [hval, hrest]

/-- Reading back the appended name elements returns the clean name list. -/
theorem collectVals_mkNameElems (t : String) (gs : List String)
    (h : ∀ g ∈ gs, pyStrip g = g ∧ g ≠ "") :
    collectVals (mkNameElems t gs) = gs := by
  unfold mkNameElems
  rw [cleanNames_of_clean gs h]
  exact collectVals_map_leaf t gs h

/-- `findall` distributes over child-list concatenation. -/
theorem findallTag_append (a b : List XML) (t : String) :
    findallTag (a ++ b) t = findallTag a t ++ findallTag b t :=
  List.filter_append _ _

/-- `findall` commutes with re-indentation of the children. -/
theorem findallTag_map_indent (cs : List XML) (lvl : Nat) (t : String) :
    findallTag (cs.map (indentAt lvl)) t = (findallTag cs t).map (indentAt lvl) := by
  unfold findallTag
  rw [List.filter_map]
  congr 1
  apply List.filter_congr
  intro x _
  simp [Function.comp, indentAt_tag]

/-- After the removal pass no direct `<genre>` child remains. -/
theorem findallTag_removeGT_genre (cs : List XML) :
    findallTag (removeGenreTagChildren cs) "genre" = [] := by
  unfold findallTag removeGenreTagChildren
  rw [List.filter_eq_nil_iff]
  intro a ha
  obtain ⟨ha1, _⟩ := List.mem_filter.mp ha
  obtain ⟨_, hg⟩ := List.mem_filter.mp ha1
  simp at hg ⊢
  exact hg

/-- After the removal pass no direct `<tag>` child remains. -/
theorem findallTag_removeGT_tag (cs : List XML) :
    findallTag (removeGenreTagChildren cs) "tag" = [] := by
  unfold findallTag removeGenreTagChildren
  rw [List.filter_eq_nil_iff]
  intro a ha
  obtain ⟨_, htag⟩ := List.mem_filter.mp ha
  simp at htag ⊢
  exact htag

/-- The appended name elements all match their own tag. -/
theorem findallTag_mkNameElems_same (t : String) (gs : List String) :
    findallTag (mkNameElems t gs) t = mkNameElems t gs := by
  unfold findallTag
  rw [List.filter_eq_self]
  intro a ha
  obtain ⟨s, _, rfl⟩ := List.mem_map.mp ha
  simp [XML.tag]

/-- The appended name elements never match a different tag. -/
theorem findallTag_mkNameElems_other (t t2 : String) (h : t ≠ t2)
    (gs : List String) :
    findallTag (mkNameElems t gs) t2 = [] := by
  unfold findallTag
  rw [List.filter_eq_nil_iff]
  intro a ha
  obtain ⟨s, _, rfl⟩ := List.mem_map.mp ha
  simp [XML.tag]
  exact h

/-- A map that fixes every member fixes the list. -/
theorem map_id_of_eq : ∀ (l : List XML) (f : XML → XML),
    (∀ x ∈ l, f x = x) → l.map f = l := by
  intro l
  induction l with
  | nil => intro _ _; rfl
  | cons x rest ih =>
    intro f h
    rw [List.map_cons, h x (List.mem_cons_self x rest),
      ih f (fun y hy => h y (List.mem_cons_of_mem x hy))]

/-- The appended name elements are leaves, so indentation fixes them. -/
theorem map_indent_mkNameElems (lvl : Nat) (t : String) (gs : List String) :
    (mkNameElems t gs).map (indentAt lvl) = mkNameElems t gs := by
  apply map_id_of_eq
  intro x hx
  obtain ⟨s, _, rfl⟩ := List.mem_map.mp hx
  exact indentAt_leaf lvl _ rfl

/-- The genre list a parse returns is the collected direct `<genre>` texts. -/
theorem parse_nfo_genres_eq (r : XML) :
    (parse_nfo (.ok r)).genres = collectVals (findallTag r.children "genre") := rfl

/-- The tag list a parse returns is the collected direct `<tag>` texts. -/
theorem parse_nfo_tags_eq (r : XML) :
    (parse_nfo (.ok r)).tags = collectVals (findallTag r.children "tag") := rfl

/-- C5: for genre and tag name lists whose entries are non-empty and equal
to their own stripped form, the write-back on a parseable document succeeds
and re-parsing the written document returns exactly the written genre and
tag lists in order; the root keeps its tag, attributes and text content,
and every original non-genre/non-tag child is still present, in order, with
the same tag, attributes and text content recursively (blank formatting
whitespace may be re-indented). -/
theorem update_nfo_genres_tags_roundtrip (root : XML) (gs ts : List String)
    (hg : ∀ g ∈ gs, pyStrip g = g ∧ g ≠ "")
    (ht : ∀ t ∈ ts, pyStrip t = t ∧ t ≠ "") :
    ∃ newRoot, update_nfo_genres_tags (.ok root) gs ts = Except.ok newRoot ∧
      (parse_nfo (.ok newRoot)).genres = gs ∧
      (parse_nfo (.ok newRoot)).tags = ts ∧
      newRoot.tag = root.tag ∧
      newRoot.attrs = root.attrs ∧
      textContent newRoot.text = textContent root.text ∧
      SameContentList (removeGenreTagChildren root.children)
        (newRoot.children.take (removeGenreTagChildren root.children).length) := by
  rcases root with ⟨rt, ra, rtx, rcs⟩
  refine ⟨_, rfl, ?_⟩
  simp only [XML.tag, XML.attrs, XML.text, XML.children]
  by_cases hemp :
      (removeGenreTagChildren rcs ++ mkNameElems "genre" gs ++
        mkNameElems "tag" ts).isEmpty
  · have hnil : removeGenreTagChildren rcs ++ mkNameElems "genre" gs ++
        mkNameElems "tag" ts = [] := List.isEmpty_iff.mp hemp
    have h12 := List.append_eq_nil.mp hnil
    have h1 : removeGenreTagChildren rcs = [] := (List.append_eq_nil.mp h12.1).1
    have h2 : mkNameElems "genre" gs = [] := (List.append_eq_nil.mp h12.1).2
    have h3 : mkNameElems "tag" ts = [] := h12.2
    have hgs : gs = [] := by
      have hc := cleanNames_of_clean gs hg
      unfold mkNameElems at h2
      rw [hc] at h2
      exact List.map_eq_nil_iff.mp h2
    have hts : ts = [] := by
      have hc := cleanNames_of_clean ts ht
      unfold mkNameElems at h3
      rw [hc] at h3
      exact List.map_eq_nil_iff.mp h3
    have hleaf : indentAt 0 (.elem rt ra rtx
        (removeGenreTagChildren rcs ++ mkNameElems "genre" gs ++
          mkNameElems "tag" ts)) = .elem rt ra rtx
        (removeGenreTagChildren rcs ++ mkNameElems "genre" gs ++
          mkNameElems "tag" ts) :=
      indentAt_leaf 0 _ hnil
    rw [hleaf, parse_nfo_genres_eq, parse_nfo_tags_eq]
    simp only [XML.tag, XML.attrs, XML.text, XML.children]
    refine ⟨?_, ?_, by trivial, by trivial, by trivial, ?_⟩
    · rw [hnil, hgs]
      rfl
    · rw [hnil, hts]
      rfl
    · rw [h1]
      simp only [List.length_nil, List.take_zero]
      exact .nil
  · have hstep : indentAt 0 (.elem rt ra rtx
        (removeGenreTagChildren rcs ++ mkNameElems "genre" gs ++
          mkNameElems "tag" ts)) = .elem rt ra
        (if isBlankText rtx then some (indentation 1) else rtx)
        (indentChildren 1 (removeGenreTagChildren rcs ++
          mkNameElems "genre" gs ++ mkNameElems "tag" ts)) := by
      rw [indentAt, if_neg hemp]
    have hch : indentChildren 1 (removeGenreTagChildren rcs ++
        mkNameElems "genre" gs ++ mkNameElems "tag" ts) =
        (removeGenreTagChildren rcs).map (indentAt 1) ++
        mkNameElems "genre" gs ++ mkNameElems "tag" ts := by
      rw [indentChildren_eq_map, List.map_append, List.map_append,
        map_indent_mkNameElems, map_indent_mkNameElems]
    rw [hstep, hch, parse_nfo_genres_eq, parse_nfo_tags_eq]
    simp only [XML.tag, XML.attrs, XML.text, XML.children]
    refine ⟨?_, ?_, by trivial, by trivial, ?_, ?_⟩
    · rw [findallTag_append, findallTag_append, findallTag_map_indent,
        findallTag_removeGT_genre, findallTag_mkNameElems_same,
        findallTag_mkNameElems_other "tag" "genre" (by decide) ts]
      rw [List.map_nil, List.nil_append, List.append_nil]
      exact collectVals_mkNameElems "genre" gs hg
    · rw [findallTag_append, findallTag_append, findallTag_map_indent,
        findallTag_removeGT_tag,
        findallTag_mkNameElems_other "genre" "tag" (by decide) gs,
        findallTag_mkNameElems_same]
      rw [List.map_nil, List.nil_append, List.nil_append]
      exact collectVals_mkNameElems "tag" ts ht
    · by_cases hb : isBlankText rtx
      · rw [if_pos hb, textContent_indentation, isBlankText_textContent rtx hb]
      · rw [if_neg hb]
    · rw [List.append_assoc, ← List.length_map (removeGenreTagChildren rcs)
        (indentAt 1), List.take_left]
      rw [← indentChildren_eq_map]
      exact sameContentList_indent (removeGenreTagChildren rcs) 1

/-- Witness for C5: a document with a title, an old genre and a nested
untouched element, written back with two genres and one tag. -/
theorem update_nfo_genres_tags_roundtrip_witness :
    ∃ newRoot,
      update_nfo_genres_tags (.ok roundtripDoc) ["drama", "action"] ["x"] =
        Except.ok newRoot ∧
      (parse_nfo (.ok newRoot)).genres = ["drama", "action"] ∧
      (parse_nfo (.ok newRoot)).tags = ["x"] ∧
      newRoot.tag = roundtripDoc.tag ∧
      newRoot.attrs = roundtripDoc.attrs ∧
      textContent newRoot.text = textContent roundtripDoc.text ∧
      SameContentList (removeGenreTagChildren roundtripDoc.children)
        (newRoot.children.take
          (removeGenreTagChildren roundtripDoc.children).length) :=
  update_nfo_genres_tags_roundtrip roundtripDoc ["drama", "action"] ["x"]
    (by decide) (by decide)
